import Mathlib

/-!
Shallow embedding of the validation engine in `validation_engine.py`
(repository optaimi/ApprenticeshipProject).

Modelling conventions:
* Python floats are modelled as rationals (ℚ).  The one place where the
  engine can produce a non-finite float — the division
  `grouped.iloc[0] / grouped.sum()` in `infer_category`, which is `0.0/0.0`
  (IEEE NaN) when the total similarity is zero — is modelled with
  `Option ℚ`, `none` standing for the undefined (NaN) result; every
  ordered comparison against NaN is false, which the embedding mirrors
  explicitly where that confidence is consumed.
* The similarity scores produced by the external TF-IDF model
  (scikit-learn, not part of this repository) enter the embedding as an
  explicit list `sims : List ℚ`, one score per catalog row, exactly as the
  array `sims = linear_kernel(q_vec, X).flatten()` does in the source.
* `numpy.argsort` (default kind) leaves the relative order of equal keys
  unspecified; the embedding uses its deterministic stable refinement, an
  ascending stable sort of the indices (`List.insertionSort`), which is
  also what numpy's insertion sort does on small arrays.  The source then
  reverses (`[::-1]`) and truncates (`[:top_k]`) the index array.
* pandas `Series.str.strip`, `.str.lower`, Python `str.title`, and the
  Python substring test `in` are modelled character-by-character; they
  agree with Python on ASCII data, which is all the engine's policy
  constants use.
* Missing values (`NaN` cells dropped by `dropna`, `None` arguments) are
  modelled with `Option`.
-/

namespace ValidationEngine

/-- Python `str.lower()` (ASCII-faithful). -/
def pyLower (s : String) : String := ⟨s.data.map Char.toLower⟩

/-- Helper for `pyTitle`: the running Bool says whether the previous
character was alphabetic (Python: cased), i.e. whether we are inside a
word. -/
def pyTitleAux : Bool → List Char → List Char
  | _, [] => []
  | inWord, c :: cs =>
    if c.isAlpha then
      (if inWord then c.toLower else c.toUpper) :: pyTitleAux true cs
    else
      c :: pyTitleAux false cs

/-- Python `str.title()` (ASCII-faithful): first letter of each word
uppercased, the rest lowercased. -/
def pyTitle (s : String) : String := ⟨pyTitleAux false s.data⟩

/-- Python `str.strip()`: remove leading and trailing whitespace. -/
def pyStrip (s : String) : String :=
  ⟨(((s.data.dropWhile Char.isWhitespace).reverse.dropWhile
      Char.isWhitespace).reverse)⟩

/-- Does the character list `needle` occur at the start of `hay`? -/
def startsWithList : List Char → List Char → Bool
  | [], _ => true
  | _ :: _, [] => false
  | a :: as, b :: bs => a = b && startsWithList as bs

/-- Does `needle` occur contiguously inside `hay`?  Models the Python
substring test `needle in hay`. -/
def containsSubList (needle : List Char) : List Char → Bool
  | [] => needle.isEmpty
  | b :: bs => startsWithList needle (b :: bs) || containsSubList needle bs

/-- Python `needle in hay` on strings. -/
def strContains (hay needle : String) : Bool :=
  containsSubList needle.data hay.data

/-! ## Data model

One row of the reference CSV (`ho_products_dummy_200.csv`) after the
load-time cleaning in `validation_engine.py` lines 7–10: `ProductName`
has had NaN replaced by `""` and `Category` NaN replaced by `"Unknown"`,
so both are plain strings; `PriceGBP` and `AgeVerificationRequired` can
still be missing (dropped later by `dropna`), hence `Option`. -/
structure Entry where
  productName : String
  category : String
  priceGBP : Option ℚ
  ageVerificationRequired : Option String
deriving DecidableEq, Inhabited, Repr

/-- One row of the `neighbours` DataFrame built by `get_neighbours`:
a catalog row plus its `similarity` column. -/
structure Neighbour where
  entry : Entry
  similarity : ℚ
deriving DecidableEq, Inhabited, Repr

/-- The decision level of one field decision: the strings `"pass"`,
`"warning"`, `"hard_stop"` returned by the `classify_*` functions. -/
inductive Level where
  | pass
  | warning
  | hard_stop
deriving DecidableEq, Repr

/-! ## Policy / rules -/

/-- The fixed keyword list `ALCOHOL_WORDS` (lines 60–63). -/
def ALCOHOL_WORDS : List String :=
  ["beer", "lager", "cider", "wine", "vodka", "rum", "gin",
   "whisky", "whiskey", "brandy", "alcopop"]

/-- Lines 66–74, `requires_age_verification_by_policy`: the category
contains "alcohol" or the name contains one of the alcohol keywords,
case-insensitively. -/
def requires_age_verification_by_policy (product_name : String) (category : String) : Bool :=
  let name_lower := pyLower product_name
  let cat_lower := pyLower category
  if strContains cat_lower "alcohol" then true
  else if ALCOHOL_WORDS.any (fun w => strContains name_lower w) then true
  else false

/-- Comparison of the possibly-undefined (NaN, modelled `none`) category
confidence with a threshold: every ordered comparison against NaN is
false in Python. -/
def confGE (confidence : Option ℚ) (t : ℚ) : Bool :=
  match confidence with
  | none => false
  | some c => t ≤ c

/-- Lines 77–95, `classify_category`, decision level only (the message
strings do not affect control flow).  `predicted_cat` is falsy when it is
`None` or the empty string. -/
def classify_category (store_cat : String) (predicted_cat : Option String)
    (confidence : Option ℚ) : Level :=
  match predicted_cat with
  | none => Level.pass
  | some p =>
    if p = "" then Level.pass
    else if store_cat = p then Level.pass
    else if confGE confidence (7/10) then Level.warning
    else Level.warning

/-- Lines 98–121, `classify_price`, decision level only.  The `lower` and
`upper` arguments are accepted and ignored, as in the source. -/
def classify_price (price : ℚ) (median lower upper : Option ℚ) : Level :=
  match median with
  | none => Level.pass
  | some m =>
    if price ≤ 0 then Level.hard_stop
    else
      let diff_pct : ℚ := if 0 < m then (price - m) / m else 0
      if |diff_pct| ≤ 1/4 then Level.pass
      else if |diff_pct| ≤ 1/2 then Level.warning
      else Level.hard_stop

/-- Lines 124–163, `classify_age_flag`, decision level only.  The
normalised predicted flag is `None` when `predicted_flag` is `None` or
empty, and otherwise `predicted_flag.strip().title()`; the latter can
itself be falsy (empty) when the flag was pure whitespace. -/
def classify_age_flag (product_name category store_flag : String)
    (predicted_flag : Option String) (confidence : ℚ) : Level :=
  let store_flag_norm := pyTitle (pyStrip store_flag)
  let predicted_flag_norm : Option String :=
    match predicted_flag with
    | none => none
    | some p => if p = "" then none else some (pyTitle (pyStrip p))
  let policy_requires_yes := requires_age_verification_by_policy product_name category
  if policy_requires_yes ∧ store_flag_norm = "No" then Level.hard_stop
  else
    match predicted_flag_norm with
    | none => Level.pass
    | some q =>
      if q = "" then Level.pass
      else if store_flag_norm = q then Level.pass
      else if (7/10 : ℚ) ≤ confidence then Level.warning
      else Level.warning

/-! ## Nearest-neighbour retrieval

Lines 18–25, `get_neighbours`.  The similarity array
`sims = linear_kernel(q_vec, X).flatten()` is computed by scikit-learn
from the query and the catalog; it enters the embedding as the parameter
`sims` (one score per catalog row).  The index selection
`idxs = sims.argsort()[::-1][:top_k]` is modelled with a stable ascending
sort of the indices, reversed and truncated. -/

/-- The ascending comparison on indices used by `argsort`: compare the
similarity scores at the two indices. -/
def simLE (sims : List ℚ) (i j : ℕ) : Prop :=
  sims.getD i 0 ≤ sims.getD j 0

instance (sims : List ℚ) : DecidableRel (simLE sims) :=
  fun i j => inferInstanceAs (Decidable (_ ≤ _))

/-- The reversed argsort `sims.argsort()[::-1]` (line 22): indices of
`sims` in descending score order, equal scores kept in the reverse of
their original order (ascending stable sort, then reversed). -/
def argsortDesc (sims : List ℚ) : List ℕ :=
  (List.insertionSort (simLE sims) (List.range sims.length)).reverse

/-- The truncated index list `idxs = sims.argsort()[::-1][:top_k]`. -/
def neighbourIdxs (sims : List ℚ) (top_k : ℕ) : List ℕ :=
  (argsortDesc sims).take top_k

/-- Lines 18–25, `get_neighbours`: the rows `df.iloc[idxs]` with the
`similarity` column `sims[idxs]` attached. -/
def get_neighbours (catalog : List Entry) (sims : List ℚ) (top_k : ℕ) : List Neighbour :=
  (neighbourIdxs sims top_k).map (fun i => ⟨catalog.getD i default, sims.getD i 0⟩)

/-! ## Field inference -/

/-- Ascending sort on strings, modelling the sorted group keys that
pandas `groupby` produces. -/
def sortStrings (l : List String) : List String :=
  List.insertionSort (fun a b : String => a ≤ b) l

/-- The distinct strings of a list (each string kept once). -/
def distinctKeys : List String → List String
  | [] => []
  | c :: cs => if c ∈ distinctKeys cs then distinctKeys cs else c :: distinctKeys cs

/-- The grouped similarity sums
`neighbours.groupby("Category")["similarity"].sum()` (line 29): one pair
per distinct category, in ascending key order, carrying the sum of the
similarities of the neighbours in that category. -/
def groupedSims (neighbours : List Neighbour) : List (String × ℚ) :=
  (sortStrings (distinctKeys (neighbours.map (fun nb => nb.entry.category)))).map
    (fun c =>
      (c, ((neighbours.filter (fun nb => nb.entry.category = c)).map
             (fun nb => nb.similarity)).sum))

/-- Pick the pair with the largest similarity sum, earliest key winning
ties — the head of the grouped series after the descending
`sort_values` (stable refinement of pandas' unspecified tie order). -/
def topGroup (g : String × ℚ) (gs : List (String × ℚ)) : String × ℚ :=
  gs.foldl (fun acc p => if acc.2 < p.2 then p else acc) g

/-- Lines 28–34, `infer_category`: `(None, 0.0)` on an empty neighbour
set, else the top category together with its share
`grouped.iloc[0] / grouped.sum()` of the total similarity.  The share is
`none` (the float NaN `0.0/0.0`) when the total is zero. -/
def infer_category (neighbours : List Neighbour) : Option String × Option ℚ :=
  match groupedSims neighbours with
  | [] => (none, some 0)
  | g :: gs =>
    let top := topGroup g gs
    let total := ((g :: gs).map (fun p => p.2)).sum
    (some top.1, if total = 0 then none else some (top.2 / total))

/-- pandas `Series.median` on a non-empty list: the middle element of the
ascending sort, or the mean of the two middle elements for even length. -/
def medianQ (l : List ℚ) : ℚ :=
  if l.length % 2 = 1 then
    (List.insertionSort (fun a b : ℚ => a ≤ b) l).getD (l.length / 2) 0
  else
    ((List.insertionSort (fun a b : ℚ => a ≤ b) l).getD (l.length / 2 - 1) 0
      + (List.insertionSort (fun a b : ℚ => a ≤ b) l).getD (l.length / 2) 0) / 2

/-- Lines 37–45, `infer_price_band`: median of the non-missing neighbour
prices and the ±25% band around it; all three `None` when every price is
missing. -/
def infer_price_band (neighbours : List Neighbour) :
    Option ℚ × Option ℚ × Option ℚ :=
  let prices := neighbours.filterMap (fun nb => nb.entry.priceGBP)
  match prices with
  | [] => (none, none, none)
  | _ =>
    let median := medianQ prices
    (some median, some (median * (3/4)), some (median * (5/4)))

/-- Lines 48–55, `infer_age_flag`: among the non-missing age flags
(stripped, lowercased), the fraction equal to "yes"; predicted "Yes"
when that fraction is ≥ 1/2, confidence `|fraction − 1/2| · 2`. -/
def infer_age_flag (neighbours : List Neighbour) : Option String × ℚ :=
  match (neighbours.filterMap (fun nb => nb.entry.ageVerificationRequired)).map
      (fun s => pyLower (pyStrip s)) with
  | [] => (none, 0)
  | v :: vs =>
    let yes_frac : ℚ :=
      (((v :: vs).filter (fun x => x = "yes")).length : ℚ) / (v :: vs).length
    (some (if 1/2 ≤ yes_frac then "Yes" else "No"), |yes_frac - 1/2| * 2)

/-! ## Aggregation and main API -/

/-- Lines 186–192: the overall verdict from the three field decision
levels. -/
def overallVerdict (levels : List Level) : String :=
  if Level.hard_stop ∈ levels then "Requires correction before submission."
  else if Level.warning ∈ levels then "Submitted with warnings; HO will review."
  else "Ready for automatic approval."

/-- The structured result of `validate_product` (lines 194–216), message
strings omitted. -/
structure ValidationResult where
  neighbours : List Neighbour
  categoryDecision : Level
  categoryPredicted : Option String
  categoryConfidence : Option ℚ
  priceDecision : Level
  priceMedian : Option ℚ
  priceLower : Option ℚ
  priceUpper : Option ℚ
  ageDecision : Level
  agePredicted : Option String
  ageConfidence : ℚ
  overall : String
deriving DecidableEq, Repr

/-- Lines 168–216, `validate_product`, parameterised by the catalog and
by the similarity scores `sims` that the external TF-IDF model assigns
to the submitted product name against each catalog row. -/
def validate_product (catalog : List Entry) (sims : List ℚ)
    (product_name category : String) (price : ℚ) (age_flag : String) :
    ValidationResult :=
  let neighbours := get_neighbours catalog sims 15
  let pc := infer_category neighbours
  let band := infer_price_band neighbours
  let pa := infer_age_flag neighbours
  let cat_decision := classify_category category pc.1 pc.2
  let price_decision := classify_price price band.1 band.2.1 band.2.2
  let age_decision := classify_age_flag product_name category age_flag pa.1 pa.2
  { neighbours := neighbours
    categoryDecision := cat_decision
    categoryPredicted := pc.1
    categoryConfidence := pc.2
    priceDecision := price_decision
    priceMedian := band.1
    priceLower := band.2.1
    priceUpper := band.2.2
    ageDecision := age_decision
    agePredicted := pa.1
    ageConfidence := pa.2
    overall := overallVerdict [cat_decision, price_decision, age_decision] }

/-! ## Generic helper lemmas -/

/-- In a list whose elements are all zero, every `getD` lookup with
default 0 yields 0. -/
lemma getD_eq_zero_of_forall {l : List ℚ} (h : ∀ x ∈ l, x = 0) (n : ℕ) :
    l.getD n 0 = 0 := by
  rw [List.getD_eq_getElem?_getD]
  cases hx : l[n]? with
  | none => rfl
  | some x =>
    have hmem : x ∈ l := by
      have := List.getElem?_eq_some_iff.mp hx
      obtain ⟨hlt, hget⟩ := this
      exact hget ▸ List.getElem_mem hlt
    simpa [hx] using h x hmem

/-- The median of a non-empty list of zeros is zero. -/
lemma medianQ_eq_zero {l : List ℚ} (h : ∀ x ∈ l, x = 0) : medianQ l = 0 := by
  have hs : ∀ x ∈ List.insertionSort (fun a b : ℚ => a ≤ b) l, x = 0 := by
    intro x hx
    exact h x ((List.mem_insertionSort _).mp hx)
  unfold medianQ
  split
  · exact getD_eq_zero_of_forall hs _
  · rw [getD_eq_zero_of_forall hs, getD_eq_zero_of_forall hs]
    norm_num

/-! ## Claim theorems: decision rules -/

/-- C3 (counterexample): with no median available, a negative price is
classified `pass`, because `classify_price` tests `median is None`
before it tests `price <= 0`. -/
theorem C3_counterexample :
    classify_price (-1) none none none = Level.pass := by
  decide

/-- C3 (amended): a price ≤ 0 is a hard stop whenever a median is
available; with no median, `classify_price` returns `pass` for every
price, including non-positive ones. -/
theorem C3_nonpositive_price (price m : ℚ) (lower upper : Option ℚ) :
    (price ≤ 0 → classify_price price (some m) lower upper = Level.hard_stop)
    ∧ classify_price price none lower upper = Level.pass := by
  constructor
  · intro h
    simp [classify_price, h]
  · rfl

/-- C3 (witness): the amended theorem applied at price 0, median 10. -/
theorem C3_nonpositive_price_witness :
    ((0 : ℚ) ≤ 0)
    ∧ classify_price 0 (some 10) none none = Level.hard_stop
    ∧ classify_price 0 none none none = Level.pass :=
  ⟨le_refl 0, (C3_nonpositive_price 0 10 none none).1 (le_refl 0),
    (C3_nonpositive_price 0 10 none none).2⟩

/-- C4: when the fixed age-restriction policy matches the product name
or category and the submitted flag normalises to "No",
`classify_age_flag` returns `hard_stop` for every predicted flag and
every confidence: the policy override wins over the inference-based
branches. -/
theorem C4_policy_override (product_name category store_flag : String)
    (predicted_flag : Option String) (confidence : ℚ)
    (hpolicy : requires_age_verification_by_policy product_name category = true)
    (hflag : pyTitle (pyStrip store_flag) = "No") :
    classify_age_flag product_name category store_flag predicted_flag confidence
      = Level.hard_stop := by
  simp [classify_age_flag, hpolicy, hflag]

/-- C4 (witness): "Premium Lager" in category "Soft Drinks" with flag
"No" is hard-stopped even with predicted flag "Yes" at confidence 1. -/
theorem C4_policy_override_witness :
    requires_age_verification_by_policy "Premium Lager" "Soft Drinks" = true
    ∧ pyTitle (pyStrip "No") = "No"
    ∧ classify_age_flag "Premium Lager" "Soft Drinks" "No" (some "Yes") 1
        = Level.hard_stop :=
  ⟨by decide, by decide,
    C4_policy_override "Premium Lager" "Soft Drinks" "No" (some "Yes") 1
      (by decide) (by decide)⟩

/-- C6: for a positive price and a positive median, `classify_price`
partitions outcomes exactly by the relative deviation
`diff_pct = (price − median)/median`: pass iff |diff_pct| ≤ 1/4,
warning iff 1/4 < |diff_pct| ≤ 1/2, hard stop iff 1/2 < |diff_pct|. -/
theorem C6_price_thresholds (price m : ℚ) (lower upper : Option ℚ)
    (hp : 0 < price) (hm : 0 < m) :
    (classify_price price (some m) lower upper = Level.pass
      ↔ |(price - m) / m| ≤ 1/4)
    ∧ (classify_price price (some m) lower upper = Level.warning
      ↔ 1/4 < |(price - m) / m| ∧ |(price - m) / m| ≤ 1/2)
    ∧ (classify_price price (some m) lower upper = Level.hard_stop
      ↔ 1/2 < |(price - m) / m|) := by
  have hnp : ¬ price ≤ 0 := not_le.mpr hp
  have key : classify_price price (some m) lower upper =
      (if |(price - m) / m| ≤ 1/4 then Level.pass
        else if |(price - m) / m| ≤ 1/2 then Level.warning
        else Level.hard_stop) := by
    simp only [classify_price, if_neg hnp, if_pos hm]
  rcases le_or_lt (|(price - m) / m|) (1/4) with h1 | h1
  · rw [key, if_pos h1]
    exact ⟨⟨fun _ => h1, fun _ => rfl⟩,
      ⟨fun h => absurd h (by decide), fun h => absurd h1 (not_le.mpr h.1)⟩,
      ⟨fun h => absurd h (by decide), fun h => absurd h1 (by linarith)⟩⟩
  · rcases le_or_lt (|(price - m) / m|) (1/2) with h2 | h2
    · rw [key, if_neg (not_le.mpr h1), if_pos h2]
      exact ⟨⟨fun h => absurd h (by decide), fun h => absurd h (not_le.mpr h1)⟩,
        ⟨fun _ => ⟨h1, h2⟩, fun _ => rfl⟩,
        ⟨fun h => absurd h (by decide), fun h => absurd h2 (not_le.mpr h)⟩⟩
    · rw [key, if_neg (not_le.mpr h1), if_neg (not_le.mpr h2)]
      exact ⟨⟨fun h => absurd h (by decide), fun h => absurd h (not_le.mpr h1)⟩,
        ⟨fun h => absurd h (by decide), fun h => absurd h.2 (not_le.mpr h2)⟩,
        ⟨fun _ => h2, fun _ => rfl⟩⟩

/-- C6 (witness): the threshold theorem applied at price 13, median 10
(relative deviation 3/10, a warning). -/
theorem C6_price_thresholds_witness :
    ((0 : ℚ) < 13) ∧ ((0 : ℚ) < 10)
    ∧ ((classify_price 13 (some 10) none none = Level.pass
          ↔ |((13 : ℚ) - 10) / 10| ≤ 1/4)
      ∧ (classify_price 13 (some 10) none none = Level.warning
          ↔ 1/4 < |((13 : ℚ) - 10) / 10| ∧ |((13 : ℚ) - 10) / 10| ≤ 1/2)
      ∧ (classify_price 13 (some 10) none none = Level.hard_stop
          ↔ 1/2 < |((13 : ℚ) - 10) / 10|)) :=
  ⟨by norm_num, by norm_num,
    C6_price_thresholds 13 10 none none (by norm_num) (by norm_num)⟩

/-- C7: the overall verdict is the maximum of the three field decision
levels under hard_stop > warning > pass: "requires correction" iff some
field is a hard stop, "pending review" iff none is a hard stop and some
field is a warning, "ready" iff neither. -/
theorem C7_overall_is_max (a b c : Level) :
    (overallVerdict [a, b, c] = "Requires correction before submission."
      ↔ (a = Level.hard_stop ∨ b = Level.hard_stop ∨ c = Level.hard_stop))
    ∧ (overallVerdict [a, b, c] = "Submitted with warnings; HO will review."
      ↔ (¬(a = Level.hard_stop ∨ b = Level.hard_stop ∨ c = Level.hard_stop)
          ∧ (a = Level.warning ∨ b = Level.warning ∨ c = Level.warning)))
    ∧ (overallVerdict [a, b, c] = "Ready for automatic approval."
      ↔ (¬(a = Level.hard_stop ∨ b = Level.hard_stop ∨ c = Level.hard_stop)
          ∧ ¬(a = Level.warning ∨ b = Level.warning ∨ c = Level.warning))) := by
  cases a <;> cases b <;> cases c <;> decide

/-- C9: `classify_category` never returns `hard_stop`, for every
submitted category, predicted category and confidence. -/
theorem C9_category_never_hard_stop (store_cat : String)
    (predicted_cat : Option String) (confidence : Option ℚ) :
    classify_category store_cat predicted_cat confidence ≠ Level.hard_stop := by
  unfold classify_category
  cases predicted_cat with
  | none => simp
  | some p =>
    by_cases h1 : p = ""
    · simp [h1]
    · by_cases h2 : store_cat = p
      · simp [h1, h2]
      · by_cases h3 : confGE confidence (7/10)
        · simp [h1, h2, h3]
        · simp [h1, h2, h3]

/-- C10: against a zero median the division guard in `classify_price`
sets `diff_pct` to 0, so every positive price passes; and a non-empty
set of all-zero neighbour prices does produce median 0 (with a zero
band) from `infer_price_band`. -/
theorem C10_zero_median_guard (price : ℚ) (lower upper : Option ℚ)
    (hp : 0 < price) :
    classify_price price (some 0) lower upper = Level.pass
    ∧ ∀ nbs : List Neighbour,
        nbs.filterMap (fun nb => nb.entry.priceGBP) ≠ [] →
        (∀ p ∈ nbs.filterMap (fun nb => nb.entry.priceGBP), p = 0) →
        infer_price_band nbs = (some 0, some 0, some 0) := by
  constructor
  · have hnp : ¬ price ≤ 0 := not_le.mpr hp
    simp [classify_price, hnp]
  · intro nbs hne hz
    unfold infer_price_band
    cases hpr : nbs.filterMap (fun nb => nb.entry.priceGBP) with
    | nil => exact absurd hpr hne
    | cons p ps =>
      have hmed : medianQ (p :: ps) = 0 := by
        apply medianQ_eq_zero
        intro x hx
        exact hz x (by rw [hpr]; exact hx)
      simp [hmed]

/-- C10 (witness): the guard theorem applied at price 5 with a
single-neighbour set whose only price is 0. -/
theorem C10_zero_median_guard_witness :
    ((0 : ℚ) < 5)
    ∧ classify_price 5 (some 0) none none = Level.pass
    ∧ ([⟨⟨"Freebie", "Misc", some 0, some "No"⟩, 1⟩] : List Neighbour).filterMap
        (fun nb => nb.entry.priceGBP) ≠ []
    ∧ infer_price_band [⟨⟨"Freebie", "Misc", some 0, some "No"⟩, 1⟩]
        = (some 0, some 0, some 0) :=
  ⟨by decide, (C10_zero_median_guard 5 none none (by decide)).1,
    by decide,
    (C10_zero_median_guard 5 none none (by decide)).2
      [⟨⟨"Freebie", "Misc", some 0, some "No"⟩, 1⟩] (by decide) (by decide)⟩

/-! ## Retrieval: order and shape of the neighbour set -/

instance (sims : List ℚ) : IsTotal ℕ (simLE sims) :=
  ⟨fun _ _ => le_total _ _⟩

instance (sims : List ℚ) : IsTrans ℕ (simLE sims) :=
  ⟨fun _ _ _ hab hbc => le_trans hab hbc⟩

lemma length_argsortDesc (sims : List ℚ) :
    (argsortDesc sims).length = sims.length := by
  simp [argsortDesc, List.length_insertionSort]

lemma mem_argsortDesc {sims : List ℚ} {i : ℕ} :
    i ∈ argsortDesc sims ↔ i < sims.length := by
  simp [argsortDesc, List.mem_insertionSort, List.mem_range]

/-- The strict order that a stable ascending argsort realises on the
index list: strictly smaller score first, equal scores in ascending
index order. -/
def simStrict (sims : List ℚ) (i j : ℕ) : Prop :=
  sims.getD i 0 < sims.getD j 0 ∨ (sims.getD i 0 = sims.getD j 0 ∧ i < j)

/-- Inserting an index smaller than all members of a stably ordered
index list keeps the list stably ordered. -/
lemma orderedInsert_stable (sims : List ℚ) (x : ℕ) :
    ∀ l : List ℕ, l.Sorted (simLE sims) →
      l.Pairwise (simStrict sims) →
      (∀ y ∈ l, x < y) →
      (l.orderedInsert (simLE sims) x).Pairwise (simStrict sims) := by
  intro l
  induction l with
  | nil =>
    intro _ _ _
    simp [List.orderedInsert]
  | cons y ys ih =>
    intro hsort hpw hx
    rw [List.orderedInsert]
    by_cases h : simLE sims x y
    · rw [if_pos h]
      refine List.Pairwise.cons ?_ hpw
      intro z hz
      have hxz : simLE sims x z := by
        rcases List.mem_cons.mp hz with rfl | hz'
        · exact h
        · exact le_trans h (List.rel_of_sorted_cons hsort z hz')
      rcases lt_or_eq_of_le hxz with hlt | heq
      · exact Or.inl hlt
      · exact Or.inr ⟨heq, hx z hz⟩
    · rw [if_neg h]
      have hrec := ih hsort.of_cons (List.pairwise_cons.mp hpw).2
        (fun z hz => hx z (List.mem_cons_of_mem _ hz))
      refine List.Pairwise.cons ?_ hrec
      intro z hz
      rcases (List.mem_orderedInsert _).mp hz with rfl | hz'
      · exact Or.inl (lt_of_not_le h)
      · exact (List.pairwise_cons.mp hpw).1 z hz'

/-- The ascending stable sort of a strictly increasing index list is
stably ordered: ascending scores, equal scores in ascending index
order. -/
lemma insertionSort_stable (sims : List ℚ) :
    ∀ l : List ℕ, l.Pairwise (· < ·) →
      (List.insertionSort (simLE sims) l).Pairwise (simStrict sims) := by
  intro l
  induction l with
  | nil => intro _; simp
  | cons x xs ih =>
    intro hpw
    rw [List.insertionSort]
    apply orderedInsert_stable
    · exact List.sorted_insertionSort _ _
    · exact ih (List.pairwise_cons.mp hpw).2
    · intro y hy
      exact (List.pairwise_cons.mp hpw).1 y ((List.mem_insertionSort _).mp hy)

/-- The truncated reversed argsort is stably descending: strictly larger
score first, equal scores in descending index order. -/
lemma pairwise_neighbourIdxs (sims : List ℚ) (k : ℕ) :
    (neighbourIdxs sims k).Pairwise (fun i j => simStrict sims j i) := by
  apply List.Pairwise.sublist (List.take_sublist _ _)
  unfold argsortDesc
  exact (List.pairwise_reverse).mpr
    (insertionSort_stable sims _ (List.pairwise_lt_range _))

lemma length_neighbourIdxs (sims : List ℚ) (k : ℕ) :
    (neighbourIdxs sims k).length = min k sims.length := by
  simp [neighbourIdxs, length_argsortDesc]

lemma mem_neighbourIdxs {sims : List ℚ} {k i : ℕ}
    (h : i ∈ neighbourIdxs sims k) : i < sims.length :=
  mem_argsortDesc.mp (List.take_subset _ _ h)

lemma get_neighbours_length (catalog : List Entry) (sims : List ℚ) (k : ℕ) :
    (get_neighbours catalog sims k).length = min k sims.length := by
  simp [get_neighbours, length_neighbourIdxs]

/-- C5 (counterexample): two catalog entries with equal similarity are
returned in reverse catalog order — index 1 before index 0 — because
the ascending argsort is reversed; the claimed original-order tie-break
fails. -/
theorem C5_counterexample :
    neighbourIdxs [0, 0] 2 = [1, 0]
    ∧ get_neighbours [⟨"a", "A", none, none⟩, ⟨"b", "B", none, none⟩] [0, 0] 2
        = [⟨⟨"b", "B", none, none⟩, 0⟩, ⟨⟨"a", "A", none, none⟩, 0⟩] := by
  decide

/-- C5 (amended): `get_neighbours` takes the first k indices of a
descending sort of the similarities in which ties between equal
similarities are broken by DESCENDING original catalog index (the
ascending stable argsort is reversed), so of two entries with equal
similarity the one with the LARGER catalog index appears first. -/
theorem C5_descending_with_reversed_ties (sims : List ℚ) (k : ℕ) :
    (neighbourIdxs sims k).Pairwise (fun i j =>
      sims.getD j 0 < sims.getD i 0
      ∨ (sims.getD j 0 = sims.getD i 0 ∧ j < i)) :=
  pairwise_neighbourIdxs sims k

/-- C8: for a catalog of N entries (similarity list of matching length,
scores in [0,1] as cosine similarities are), `get_neighbours` returns
min(k, N) neighbours, in non-increasing similarity order, every
similarity in [0,1]; and when N ≤ k the selected indices are a
permutation of the whole catalog index range. -/
theorem C8_retrieval_shape (catalog : List Entry) (sims : List ℚ) (k : ℕ)
    (hlen : sims.length = catalog.length)
    (h01 : ∀ s ∈ sims, 0 ≤ s ∧ s ≤ 1) :
    (get_neighbours catalog sims k).length = min k catalog.length
    ∧ (get_neighbours catalog sims k).Pairwise
        (fun a b => b.similarity ≤ a.similarity)
    ∧ (∀ nb ∈ get_neighbours catalog sims k,
        0 ≤ nb.similarity ∧ nb.similarity ≤ 1)
    ∧ (catalog.length ≤ k →
        (neighbourIdxs sims k).Perm (List.range catalog.length)) := by
  refine ⟨?_, ?_, ?_, ?_⟩
  · rw [get_neighbours_length, hlen]
  · rw [get_neighbours, List.pairwise_map]
    refine (pairwise_neighbourIdxs sims k).imp ?_
    intro i j hij
    rcases hij with hlt | ⟨heq, _⟩
    · exact le_of_lt hlt
    · exact le_of_eq heq
  · intro nb hnb
    rw [get_neighbours] at hnb
    obtain ⟨i, hi, rfl⟩ := List.mem_map.mp hnb
    have hilt : i < sims.length := mem_neighbourIdxs hi
    have : sims.getD i 0 ∈ sims := by
      rw [List.getD_eq_getElem?_getD, List.getElem?_eq_getElem hilt]
      exact List.getElem_mem hilt
    exact h01 _ this
  · intro hk
    have hta : neighbourIdxs sims k = argsortDesc sims := by
      apply List.take_of_length_le
      rw [length_argsortDesc, hlen]
      exact hk
    rw [hta, ← hlen]
    exact (List.reverse_perm _).trans (List.perm_insertionSort _ _)

/-- C8 (witness): the shape theorem applied to a 2-entry catalog with
similarities 0 and 1 and k = 1. -/
theorem C8_retrieval_shape_witness :
    ([(0 : ℚ), 1].length = ([⟨"a", "A", none, none⟩, ⟨"b", "B", none, none⟩] : List Entry).length)
    ∧ (∀ s ∈ [(0 : ℚ), 1], 0 ≤ s ∧ s ≤ 1)
    ∧ ((get_neighbours [⟨"a", "A", none, none⟩, ⟨"b", "B", none, none⟩] [0, 1] 1).length
        = min 1 ([⟨"a", "A", none, none⟩, ⟨"b", "B", none, none⟩] : List Entry).length
      ∧ (get_neighbours [⟨"a", "A", none, none⟩, ⟨"b", "B", none, none⟩] [0, 1] 1).Pairwise
          (fun a b => b.similarity ≤ a.similarity)
      ∧ (∀ nb ∈ get_neighbours [⟨"a", "A", none, none⟩, ⟨"b", "B", none, none⟩] [0, 1] 1,
          0 ≤ nb.similarity ∧ nb.similarity ≤ 1)
      ∧ (([⟨"a", "A", none, none⟩, ⟨"b", "B", none, none⟩] : List Entry).length ≤ 1 →
          (neighbourIdxs [0, 1] 1).Perm (List.range ([⟨"a", "A", none, none⟩, ⟨"b", "B", none, none⟩] : List Entry).length))) :=
  ⟨by decide, by decide,
    C8_retrieval_shape [⟨"a", "A", none, none⟩, ⟨"b", "B", none, none⟩] [0, 1] 1
      (by decide) (by decide)⟩

/-! ## Inference: predicted values and confidences -/

lemma distinctKeys_eq_nil_iff (l : List String) :
    distinctKeys l = [] ↔ l = [] := by
  induction l with
  | nil => simp [distinctKeys]
  | cons c cs ih =>
    simp only [distinctKeys]
    constructor
    · intro h
      by_cases hc : c ∈ distinctKeys cs
      · rw [if_pos hc] at h
        exact absurd (h ▸ hc) (List.not_mem_nil c)
      · rw [if_neg hc] at h
        exact absurd h (List.cons_ne_nil c _)
    · intro h
      exact absurd h (List.cons_ne_nil c cs)

lemma groupedSims_eq_nil_iff (nbs : List Neighbour) :
    groupedSims nbs = [] ↔ nbs = [] := by
  unfold groupedSims sortStrings
  rw [List.map_eq_nil_iff]
  constructor
  · intro h
    have hlen := congrArg List.length h
    rw [List.length_insertionSort] at hlen
    have hdn : distinctKeys (nbs.map fun nb => nb.entry.category) = [] :=
      List.length_eq_zero.mp hlen
    have := (distinctKeys_eq_nil_iff _).mp hdn
    exact List.map_eq_nil_iff.mp this
  · intro h
    subst h
    rfl

/-- Every grouped value is a sum of similarities of a sublist of the
neighbour set; in particular it is 0 when every similarity is 0 and
non-negative when every similarity is non-negative. -/
lemma groupedSims_snd_eq_zero {nbs : List Neighbour}
    (hz : ∀ nb ∈ nbs, nb.similarity = 0) :
    ∀ p ∈ groupedSims nbs, p.2 = 0 := by
  intro p hp
  unfold groupedSims at hp
  obtain ⟨c, _, rfl⟩ := List.mem_map.mp hp
  apply List.sum_eq_zero
  intro x hx
  obtain ⟨nb, hnb, rfl⟩ := List.mem_map.mp hx
  exact hz nb (List.mem_of_mem_filter hnb)

lemma groupedSims_snd_nonneg {nbs : List Neighbour}
    (hnn : ∀ nb ∈ nbs, 0 ≤ nb.similarity) :
    ∀ p ∈ groupedSims nbs, 0 ≤ p.2 := by
  intro p hp
  unfold groupedSims at hp
  obtain ⟨c, _, rfl⟩ := List.mem_map.mp hp
  apply List.sum_nonneg
  intro x hx
  obtain ⟨nb, hnb, rfl⟩ := List.mem_map.mp hx
  exact hnn nb (List.mem_of_mem_filter hnb)

lemma topGroup_mem (g : String × ℚ) (gs : List (String × ℚ)) :
    topGroup g gs = g ∨ topGroup g gs ∈ gs := by
  induction gs generalizing g with
  | nil => exact Or.inl rfl
  | cons p ps ih =>
    have heq : topGroup g (p :: ps) = topGroup (if g.2 < p.2 then p else g) ps := rfl
    rw [heq]
    rcases ih (if g.2 < p.2 then p else g) with h | h
    · rw [h]
      by_cases hc : g.2 < p.2
      · rw [if_pos hc]
        exact Or.inr (List.mem_cons_self _ _)
      · exact Or.inl (if_neg hc)
    · exact Or.inr (List.mem_cons_of_mem _ h)

lemma topGroup_ge (g : String × ℚ) (gs : List (String × ℚ)) :
    g.2 ≤ (topGroup g gs).2 ∧ ∀ p ∈ gs, p.2 ≤ (topGroup g gs).2 := by
  induction gs generalizing g with
  | nil => exact ⟨le_refl _, by simp⟩
  | cons p ps ih =>
    have heq : topGroup g (p :: ps) = topGroup (if g.2 < p.2 then p else g) ps := rfl
    obtain ⟨h1, h2⟩ := ih (if g.2 < p.2 then p else g)
    rw [heq]
    constructor
    · refine le_trans ?_ h1
      by_cases hc : g.2 < p.2
      · rw [if_pos hc]
        exact le_of_lt hc
      · rw [if_neg hc]
    · intro q hq
      rcases List.mem_cons.mp hq with rfl | hq'
      · refine le_trans ?_ h1
        by_cases hc : g.2 < q.2
        · rw [if_pos hc]
        · rw [if_neg hc]
          exact le_of_not_lt hc
      · exact h2 q hq'

lemma infer_category_fst_isSome {nbs : List Neighbour} (h : nbs ≠ []) :
    (infer_category nbs).1.isSome = true := by
  unfold infer_category
  cases hg : groupedSims nbs with
  | nil => exact absurd ((groupedSims_eq_nil_iff nbs).mp hg) h
  | cons g gs => rfl

lemma infer_category_conf_none {nbs : List Neighbour} (h : nbs ≠ [])
    (hz : ∀ nb ∈ nbs, nb.similarity = 0) :
    (infer_category nbs).2 = none := by
  unfold infer_category
  cases hg : groupedSims nbs with
  | nil => exact absurd ((groupedSims_eq_nil_iff nbs).mp hg) h
  | cons g gs =>
    have hsum : ((g :: gs).map (fun p => p.2)).sum = 0 := by
      apply List.sum_eq_zero
      intro x hx
      obtain ⟨p, hp, rfl⟩ := List.mem_map.mp hx
      exact groupedSims_snd_eq_zero hz p (hg ▸ hp)
    show (if ((g :: gs).map (fun p => p.2)).sum = 0 then (none : Option ℚ)
          else some ((topGroup g gs).2 / ((g :: gs).map (fun p => p.2)).sum)) = none
    rw [if_pos hsum]

/-- C2 (counterexample): a single neighbour at similarity 0 is a
non-empty neighbour set, yet the confidence of `infer_category` is the
float `0.0/0.0` (NaN, modelled `none`): neither a number in [0,1] nor
the empty-set case. -/
theorem C2_counterexample :
    infer_category [⟨⟨"Ale", "Drinks", some 2, some "No"⟩, 0⟩]
        = (some "Drinks", none)
    ∧ ([⟨⟨"Ale", "Drinks", some 2, some "No"⟩, (0 : ℚ)⟩] : List Neighbour) ≠ [] := by
  constructor
  · have h : ([⟨⟨"Ale", "Drinks", some 2, some "No"⟩, (0 : ℚ)⟩] : List Neighbour) ≠ [] := by
      decide
    have h1 := infer_category_fst_isSome h
    have h2 := infer_category_conf_none h (by decide)
    have h3 : (infer_category [⟨⟨"Ale", "Drinks", some 2, some "No"⟩, 0⟩]).1
        = some "Drinks" := by
      unfold infer_category
    -- the grouped list has the single key "Drinks"
      have hg : groupedSims [⟨⟨"Ale", "Drinks", some 2, some "No"⟩, 0⟩]
          = [("Drinks", 0)] := by
        unfold groupedSims distinctKeys sortStrings
        simp [List.insertionSort]
      rw [hg]
      simp [topGroup]
    exact Prod.ext h3 h2
  · decide

lemma infer_category_empty_iff (nbs : List Neighbour) :
    infer_category nbs = (none, some 0) ↔ nbs = [] := by
  constructor
  · intro h
    by_contra hne
    have hs := infer_category_fst_isSome hne
    rw [h] at hs
    simp at hs
  · intro h
    subst h
    rfl

lemma infer_category_conf_in_unit {nbs : List Neighbour}
    (hnn : ∀ nb ∈ nbs, 0 ≤ nb.similarity) :
    ∀ q, (infer_category nbs).2 = some q → 0 ≤ q ∧ q ≤ 1 := by
  intro q hq
  cases hg : groupedSims nbs with
  | nil =>
    have key : (infer_category nbs).2 = some 0 := by
      unfold infer_category
      rw [hg]
    rw [key] at hq
    obtain rfl : (0 : ℚ) = q := Option.some.inj hq
    exact ⟨le_refl 0, by norm_num⟩
  | cons g gs =>
    have key : (infer_category nbs).2 =
        (if ((g :: gs).map (fun p => p.2)).sum = 0 then none
          else some ((topGroup g gs).2 / ((g :: gs).map (fun p => p.2)).sum)) := by
      unfold infer_category
      rw [hg]
    rw [key] at hq
    by_cases htot : ((g :: gs).map (fun p => p.2)).sum = 0
    · rw [if_pos htot] at hq
      exact absurd hq (by simp)
    · rw [if_neg htot] at hq
      obtain rfl := (Option.some.inj hq).symm
      have hgnn : ∀ p ∈ g :: gs, 0 ≤ p.2 := by
        intro p hp
        exact groupedSims_snd_nonneg hnn p (hg ▸ hp)
      have hsumnn : ∀ x ∈ (g :: gs).map (fun p => p.2), 0 ≤ x := by
        intro x hx
        obtain ⟨p, hp, rfl⟩ := List.mem_map.mp hx
        exact hgnn p hp
      have htotpos : 0 < ((g :: gs).map (fun p => p.2)).sum :=
        lt_of_le_of_ne (List.sum_nonneg hsumnn) (Ne.symm htot)
      have htopmem : topGroup g gs ∈ g :: gs := by
        rcases topGroup_mem g gs with h | h
        · rw [h]
          exact List.mem_cons_self _ _
        · exact List.mem_cons_of_mem _ h
      have htopnn : 0 ≤ (topGroup g gs).2 := hgnn _ htopmem
      have htople : (topGroup g gs).2 ≤ ((g :: gs).map (fun p => p.2)).sum :=
        List.single_le_sum hsumnn _ (List.mem_map_of_mem (fun p => p.2) htopmem)
      exact ⟨div_nonneg htopnn (le_of_lt htotpos),
        (div_le_one htotpos).mpr htople⟩

lemma infer_category_conf_none_iff (nbs : List Neighbour) :
    (infer_category nbs).2 = none ↔
      nbs ≠ [] ∧ ((groupedSims nbs).map (fun p => p.2)).sum = 0 := by
  cases hg : groupedSims nbs with
  | nil =>
    have hnil := (groupedSims_eq_nil_iff nbs).mp hg
    subst hnil
    constructor
    · intro h
      exact absurd h (by decide)
    · intro h
      exact absurd rfl h.1
  | cons g gs =>
    have hne : nbs ≠ [] := by
      intro hni
      rw [hni] at hg
      exact (List.cons_ne_nil g gs) hg.symm
    have key : (infer_category nbs).2 =
        (if ((g :: gs).map (fun p => p.2)).sum = 0 then none
          else some ((topGroup g gs).2 / ((g :: gs).map (fun p => p.2)).sum)) := by
      unfold infer_category
      rw [hg]
    rw [key]
    by_cases htot : ((g :: gs).map (fun p => p.2)).sum = 0
    · rw [if_pos htot]
      exact iff_of_true rfl ⟨hne, htot⟩
    · rw [if_neg htot]
      exact iff_of_false (by simp) (fun h => htot h.2)

lemma infer_age_flag_conf_in_unit (nbs : List Neighbour) :
    0 ≤ (infer_age_flag nbs).2 ∧ (infer_age_flag nbs).2 ≤ 1 := by
  cases hv : (nbs.filterMap (fun nb => nb.entry.ageVerificationRequired)).map
      (fun s => pyLower (pyStrip s)) with
  | nil =>
    have key : (infer_age_flag nbs).2 = 0 := by
      unfold infer_age_flag
      rw [hv]
    rw [key]
    exact ⟨le_refl 0, by norm_num⟩
  | cons v vs =>
    have key : (infer_age_flag nbs).2 =
        |(((v :: vs).filter (fun x => x = "yes")).length : ℚ)
            / ((v :: vs).length : ℚ) - 1/2| * 2 := by
      unfold infer_age_flag
      rw [hv]
    rw [key]
    have hlenpos : (0 : ℚ) < ((v :: vs).length : ℚ) := by
      exact_mod_cast Nat.succ_pos vs.length
    have hcount : (((v :: vs).filter (fun x => x = "yes")).length : ℚ)
        ≤ ((v :: vs).length : ℚ) := by
      exact_mod_cast List.length_filter_le _ _
    have hf0 : 0 ≤ (((v :: vs).filter (fun x => x = "yes")).length : ℚ)
        / ((v :: vs).length : ℚ) :=
      div_nonneg (Nat.cast_nonneg _) (le_of_lt hlenpos)
    have hf1 : (((v :: vs).filter (fun x => x = "yes")).length : ℚ)
        / ((v :: vs).length : ℚ) ≤ 1 :=
      (div_le_one hlenpos).mpr hcount
    have habs : |(((v :: vs).filter (fun x => x = "yes")).length : ℚ)
        / ((v :: vs).length : ℚ) - 1/2| ≤ 1/2 := by
      rw [abs_le]
      constructor <;> linarith
    constructor
    · exact mul_nonneg (abs_nonneg _) (by norm_num)
    · nlinarith [abs_nonneg ((((v :: vs).filter (fun x => x = "yes")).length : ℚ)
        / ((v :: vs).length : ℚ) - 1/2)]

lemma infer_age_flag_none_iff (nbs : List Neighbour) :
    infer_age_flag nbs = (none, 0) ↔
      nbs.filterMap (fun nb => nb.entry.ageVerificationRequired) = [] := by
  cases hv : (nbs.filterMap (fun nb => nb.entry.ageVerificationRequired)).map
      (fun s => pyLower (pyStrip s)) with
  | nil =>
    have key : infer_age_flag nbs = (none, 0) := by
      unfold infer_age_flag
      rw [hv]
    exact iff_of_true key (List.map_eq_nil_iff.mp hv)
  | cons v vs =>
    have key : infer_age_flag nbs =
        (some (if 1/2 ≤ (((v :: vs).filter (fun x => x = "yes")).length : ℚ)
              / ((v :: vs).length : ℚ) then "Yes" else "No"),
          |(((v :: vs).filter (fun x => x = "yes")).length : ℚ)
              / ((v :: vs).length : ℚ) - 1/2| * 2) := by
      unfold infer_age_flag
      rw [hv]
    refine iff_of_false ?_ ?_
    · rw [key]
      simp
    · intro h
      rw [h] at hv
      exact (List.cons_ne_nil v vs) hv.symm

/-- C2 (amended): the predicted/ confidence pair of `infer_category` is
`(None, 0.0)` exactly on the empty neighbour set; whenever its
confidence is an actual number (similarities being non-negative) it lies
in [0,1], but it is NaN (modelled `none`) exactly when the set is
non-empty with zero total similarity — in particular at all-zero
similarities it is NOT a number in [0,1].  The confidence of
`infer_age_flag` always lies in [0,1], and its predicted value is absent
(with confidence 0) exactly when no neighbour has a defined age flag —
which the empty set implies but which also happens on non-empty sets. -/
theorem C2_confidence_ranges :
    (∀ nbs : List Neighbour, infer_category nbs = (none, some 0) ↔ nbs = [])
    ∧ (∀ nbs : List Neighbour, (∀ nb ∈ nbs, 0 ≤ nb.similarity) →
        ∀ q, (infer_category nbs).2 = some q → 0 ≤ q ∧ q ≤ 1)
    ∧ (∀ nbs : List Neighbour, (infer_category nbs).2 = none ↔
        nbs ≠ [] ∧ ((groupedSims nbs).map (fun p => p.2)).sum = 0)
    ∧ (∀ nbs : List Neighbour,
        0 ≤ (infer_age_flag nbs).2 ∧ (infer_age_flag nbs).2 ≤ 1)
    ∧ (∀ nbs : List Neighbour, infer_age_flag nbs = (none, 0) ↔
        nbs.filterMap (fun nb => nb.entry.ageVerificationRequired) = []) :=
  ⟨infer_category_empty_iff,
    fun _ hnn => infer_category_conf_in_unit hnn,
    infer_category_conf_none_iff,
    infer_age_flag_conf_in_unit,
    infer_age_flag_none_iff⟩

/-- C2 (witness): the amended theorem applied to the single-neighbour
set at similarity 1, whose category confidence is 1/1 = 1 ∈ [0,1]. -/
theorem C2_confidence_ranges_witness :
    (∀ nb ∈ ([⟨⟨"Ale", "Drinks", some 2, some "No"⟩, 1⟩] : List Neighbour),
        0 ≤ nb.similarity)
    ∧ (infer_category [⟨⟨"Ale", "Drinks", some 2, some "No"⟩, 1⟩]).2 = some 1
    ∧ (0 ≤ (1 : ℚ) ∧ (1 : ℚ) ≤ 1) :=
  ⟨by decide,
    by
      have hg : groupedSims [⟨⟨"Ale", "Drinks", some 2, some "No"⟩, 1⟩]
          = [("Drinks", 1)] := by
        unfold groupedSims distinctKeys sortStrings
        norm_num [List.insertionSort, List.orderedInsert]
      unfold infer_category
      rw [hg]
      norm_num [topGroup],
    C2_confidence_ranges.2.1 [⟨⟨"Ale", "Drinks", some 2, some "No"⟩, 1⟩]
      (by decide) 1
      (by
        have hg : groupedSims [⟨⟨"Ale", "Drinks", some 2, some "No"⟩, 1⟩]
            = [("Drinks", 1)] := by
          unfold groupedSims distinctKeys sortStrings
          norm_num [List.insertionSort, List.orderedInsert]
        unfold infer_category
        rw [hg]
        norm_num [topGroup])⟩

/-! ## Zero-overlap queries -/

/-- C1 (counterexample): against a one-entry catalog with similarity 0
(a query sharing no vocabulary), `validate_product` still returns the
neighbour at similarity 0, but the predicted category is `some "Drinks"`
— not absent — and the category decision for the submitted category
"Snacks" is `warning`, not `pass`. -/
theorem C1_counterexample :
    (validate_product [⟨"Apple Juice", "Drinks", some 2, some "No"⟩] [0]
        "Zzz" "Snacks" 2 "No").neighbours
      = [⟨⟨"Apple Juice", "Drinks", some 2, some "No"⟩, 0⟩]
    ∧ (validate_product [⟨"Apple Juice", "Drinks", some 2, some "No"⟩] [0]
        "Zzz" "Snacks" 2 "No").categoryPredicted = some "Drinks"
    ∧ (validate_product [⟨"Apple Juice", "Drinks", some 2, some "No"⟩] [0]
        "Zzz" "Snacks" 2 "No").categoryDecision = Level.warning := by
  have hn : get_neighbours [⟨"Apple Juice", "Drinks", some 2, some "No"⟩] [0] 15
      = [⟨⟨"Apple Juice", "Drinks", some 2, some "No"⟩, 0⟩] := by
    decide
  have hg : groupedSims [⟨⟨"Apple Juice", "Drinks", some 2, some "No"⟩, 0⟩]
      = [("Drinks", 0)] := by
    unfold groupedSims distinctKeys sortStrings
    norm_num [List.insertionSort, List.orderedInsert]
  have hc : infer_category [⟨⟨"Apple Juice", "Drinks", some 2, some "No"⟩, 0⟩]
      = (some "Drinks", none) := by
    unfold infer_category
    rw [hg]
    norm_num [topGroup]
  refine ⟨?_, ?_, ?_⟩
  · show get_neighbours [⟨"Apple Juice", "Drinks", some 2, some "No"⟩] [0] 15
      = [⟨⟨"Apple Juice", "Drinks", some 2, some "No"⟩, 0⟩]
    exact hn
  · show (infer_category (get_neighbours
        [⟨"Apple Juice", "Drinks", some 2, some "No"⟩] [0] 15)).1 = some "Drinks"
    rw [hn, hc]
  · show classify_category "Snacks"
        (infer_category (get_neighbours
          [⟨"Apple Juice", "Drinks", some 2, some "No"⟩] [0] 15)).1
        (infer_category (get_neighbours
          [⟨"Apple Juice", "Drinks", some 2, some "No"⟩] [0] 15)).2
      = Level.warning
    rw [hn, hc]
    decide

/-- C1 (amended): a zero-overlap query (all similarities 0) still yields
min(k, N) neighbours, every one at similarity 0.0; but on a non-empty
catalog with k > 0 the inferred category is still a predicted value
(`some`, the top group of the zero-similarity neighbours) with NaN
confidence (`none`), so the category and age decisions follow the usual
submitted-versus-predicted comparisons rather than being unconditionally
`pass` with no predicted value. -/
theorem C1_zero_overlap (catalog : List Entry) (sims : List ℚ) (k : ℕ)
    (hlen : sims.length = catalog.length)
    (h0 : ∀ s ∈ sims, s = 0) :
    (get_neighbours catalog sims k).length = min k catalog.length
    ∧ (∀ nb ∈ get_neighbours catalog sims k, nb.similarity = 0)
    ∧ (catalog ≠ [] → 0 < k →
        (infer_category (get_neighbours catalog sims k)).1.isSome = true
        ∧ (infer_category (get_neighbours catalog sims k)).2 = none) := by
  have hzero : ∀ nb ∈ get_neighbours catalog sims k, nb.similarity = 0 := by
    intro nb hnb
    rw [get_neighbours] at hnb
    obtain ⟨i, _, rfl⟩ := List.mem_map.mp hnb
    exact getD_eq_zero_of_forall h0 i
  refine ⟨?_, hzero, ?_⟩
  · rw [get_neighbours_length, hlen]
  · intro hne hk
    have hpos : 0 < (get_neighbours catalog sims k).length := by
      rw [get_neighbours_length, hlen]
      exact lt_min hk (List.length_pos.mpr hne)
    have hnne : get_neighbours catalog sims k ≠ [] :=
      List.length_pos.mp hpos
    exact ⟨infer_category_fst_isSome hnne, infer_category_conf_none hnne hzero⟩

/-- C1 (witness): the amended theorem applied to a one-entry catalog
with similarity list [0] and k = 15. -/
theorem C1_zero_overlap_witness :
    ([(0 : ℚ)].length
        = ([⟨"Apple Juice", "Drinks", some 2, some "No"⟩] : List Entry).length)
    ∧ (∀ s ∈ [(0 : ℚ)], s = 0)
    ∧ ((get_neighbours [⟨"Apple Juice", "Drinks", some 2, some "No"⟩] [0] 15).length
        = min 15 ([⟨"Apple Juice", "Drinks", some 2, some "No"⟩] : List Entry).length
      ∧ (∀ nb ∈ get_neighbours [⟨"Apple Juice", "Drinks", some 2, some "No"⟩] [0] 15,
          nb.similarity = 0)
      ∧ (([⟨"Apple Juice", "Drinks", some 2, some "No"⟩] : List Entry) ≠ [] → 0 < 15 →
          (infer_category (get_neighbours
            [⟨"Apple Juice", "Drinks", some 2, some "No"⟩] [0] 15)).1.isSome = true
          ∧ (infer_category (get_neighbours
            [⟨"Apple Juice", "Drinks", some 2, some "No"⟩] [0] 15)).2 = none)) :=
  ⟨by decide, by decide,
    C1_zero_overlap [⟨"Apple Juice", "Drinks", some 2, some "No"⟩] [0] 15
      (by decide) (by decide)⟩

end ValidationEngine
